import Mathlib

set_option maxRecDepth 40000

/-!
Verification of the Noncedle puzzle game core
(src/src/components/NoncedleGame.tsx).

The development shallowly embeds the core logic of the component:
the 32-bit xoshiro128** generator, the deterministic block-header
builder, the hash evaluator (with the browser SHA-256 capability as an
explicit function parameter), the bounded attempt ledger, the guess
handler, the auto-guess scheduler (modelled as a small-step event
system faithful to the React effect and closure semantics of the
source), and the localStorage persistence gateway (with JSON text
modelled as an inductive value, since serialization itself is a
browser primitive).

JavaScript numbers are modelled by Nat and Int with explicit
reduction modulo 2 ^ 32 at every bitwise operation, exactly where the
source performs a ToInt32 or ToUint32 conversion.  This is exact for
all values in the float64-exact integer range, which covers every
value the program produces.
-/

namespace Noncedle

/-! ## JavaScript 32-bit integer semantics -/

/-- ToUint32: reduce an integer modulo 2 ^ 32 (JS zero-fill semantics). -/
def toUint32 (x : Int) : Nat := (x % (2 ^ 32 : Int)).toNat

/-- Reinterpret a 32-bit unsigned value as a signed 32-bit integer. -/
def asInt32 (u : Nat) : Int := if u < 2 ^ 31 then (u : Int) else (u : Int) - 2 ^ 32

/-- ToInt32: reduce an integer into the signed 32-bit range. -/
def toInt32 (x : Int) : Int := asInt32 (toUint32 x)

/-- JS left shift on 32 bits: the result wraps into the signed range. -/
def shl32 (x : Int) (k : Nat) : Int := toInt32 (x * 2 ^ k)

/-- JS unsigned right shift: operate on the ToUint32 image. -/
def ushr32 (x : Int) (k : Nat) : Nat := toUint32 x / 2 ^ k

/-- JS bitwise xor on 32 bits (result signed). -/
def xor32 (x y : Int) : Int := asInt32 (Nat.xor (toUint32 x) (toUint32 y))

/-- JS bitwise or of a signed 32-bit value with an unsigned one (result signed). -/
def orU32 (x : Int) (y : Nat) : Int := asInt32 (Nat.lor (toUint32 x) (toUint32 y))

/-! ## xoshiro128** (source lines 22-35)

The source closure mutates four captured state words; here the state is
threaded explicitly. -/

structure XState where
  a : Int
  b : Int
  c : Int
  d : Int
deriving DecidableEq

/-- One draw of the generator; returns the emitted 32-bit unsigned value
and the mutated state, following the statement order of the source. -/
def xoshiroNext (s : XState) : Nat × XState :=
  let t := shl32 s.b 9
  let r0 := s.a * 5
  let r := orU32 (shl32 r0 7) (ushr32 r0 25) * 9
  let c1 := xor32 s.c s.a
  let d1 := xor32 s.d s.b
  let b1 := xor32 s.b c1
  let a1 := xor32 s.a d1
  let c2 := xor32 c1 t
  let d2 := orU32 (shl32 d1 11) (ushr32 d1 21)
  (toUint32 r, ⟨a1, b1, c2, d2⟩)

/-- Seed used by generateMockBlockHeader (source line 40). -/
def xoshiroSeed (puzzleNumber : Nat) : XState :=
  ⟨(puzzleNumber : Int), (puzzleNumber : Int) * 747,
   (puzzleNumber : Int) * 911, (puzzleNumber : Int) * 537⟩

/-- Draw k successive values from the generator. -/
def drawList : Nat → XState → List Nat × XState
  | 0, s => ([], s)
  | Nat.succ k, s =>
      ((xoshiroNext s).1 :: (drawList k (xoshiroNext s).2).1,
       (drawList k (xoshiroNext s).2).2)

/-! ## Text helpers mirroring the JS string operations -/

/-- padStart with the zero character: pad on the left up to the target length. -/
def padStart (target : Nat) (l : List Char) : List Char :=
  List.replicate (target - l.length) '0' ++ l

/-- One merkle chunk: rng value, toString(16), padStart(8, zero), slice(0, 2)
(source lines 43-45). -/
def merkleChunk (v : Nat) : List Char :=
  (padStart 8 (Nat.toDigits 16 v)).take 2

/-- The 64-hex-character merkle field for a puzzle number (source lines 40-45). -/
def merkleHexChars (puzzleNumber : Nat) : List Char :=
  (((drawList 32 (xoshiroSeed puzzleNumber)).1.map merkleChunk)).flatten

/-- The merkle field as a string. -/
def merkleHex (puzzleNumber : Nat) : String :=
  String.mk (merkleHexChars puzzleNumber)

/-- getTime of new Date of 2024-11-29, the fixed start date of the game
(source line 10): midnight UTC, in epoch milliseconds. -/
def startDateMs : Nat := 1732838400000

/-- Decimal rendering of a JS integral number.  Exact for integers in the
float64-exact range, which covers every value the program produces. -/
def jsIntRepr (n : Int) : String :=
  if n < 0 then "-" ++ Nat.repr n.natAbs else Nat.repr n.natAbs

/-- generateMockBlockHeader (source lines 38-51): the deterministic
per-puzzle block header string. -/
def generateMockBlockHeader (puzzleNumber : Nat) : String :=
  let timestamp := startDateMs + (puzzleNumber - 1) * (24 * 60 * 60 * 1000)
  "version=2;prev=00000000000000000" ++ Nat.repr (puzzleNumber - 1) ++
    ";height=" ++ Nat.repr puzzleNumber ++
    ";timestamp=" ++ Nat.repr timestamp ++
    ";merkle=" ++ merkleHex puzzleNumber

/-! ## Hash evaluator (source lines 14-20 and 75-78)

The browser SHA-256 capability (crypto.subtle.digest) is an external
primitive; it enters the model as an explicit function from byte
sequences to byte sequences. -/

/-- UTF-8 encoding of one character (what TextEncoder.encode does per
code point). -/
def utf8EncodeChar (ch : Char) : List Nat :=
  let v := ch.toNat
  if v < 128 then [v]
  else if v < 2048 then [192 + v / 64, 128 + v % 64]
  else if v < 65536 then [224 + v / 4096, 128 + (v / 64) % 64, 128 + v % 64]
  else [240 + v / 262144, 128 + (v / 4096) % 64, 128 + (v / 64) % 64, 128 + v % 64]

/-- UTF-8 bytes of a string (TextEncoder.encode, source line 15). -/
def utf8Bytes (s : String) : List Nat :=
  (s.data.map utf8EncodeChar).flatten

/-- Hex rendering of one byte: toString(16).padStart(2, zero)
(source line 18). -/
def byteToHex (b : Nat) : List Char :=
  padStart 2 (Nat.toDigits 16 b)

/-- calculateHash (source lines 14-20): hex-encode the digest of the
UTF-8 bytes of the input, with the digest capability as a parameter. -/
def calculateHash (sha256 : List Nat → List Nat) (input : String) : String :=
  String.mk (((sha256 (utf8Bytes input)).map byteToHex).flatten)

/-- LEADING_ZEROES (source line 9): the target digit count of this
deployment. -/
def LEADING_ZEROES : Nat := 4

/-- checkHash (source lines 75-78): substring(0, LEADING_ZEROES), split
into characters, map equality with the zero character. -/
def checkHash (hash : String) : List Bool :=
  (hash.data.take LEADING_ZEROES).map (fun digit => digit == '0')

/-! ## Attempt ledger (source lines 93-100) -/

/-- The setAttempts update (source lines 93-99): append, and when the
length exceeds 1000, slice(-1000), keeping the most recent 1000. -/
def pushAttempt (prev : List (List Bool)) (result : List Bool) : List (List Bool) :=
  let newAttempts := prev ++ [result]
  if newAttempts.length > 1000 then
    newAttempts.drop (newAttempts.length - 1000)
  else
    newAttempts

/-- One recorded attempt as it affects the pair of ledger and counter
(source lines 93-100): push the result and increment totalGuesses. -/
def recordAttempt (st : List (List Bool) × Nat) (result : List Bool) :
    List (List Bool) × Nat :=
  (pushAttempt st.1 result, st.2 + 1)

/-! ## Component state and the guess handler (source lines 53-111) -/

/-- The React state fields of the component that the core logic reads and
writes (source lines 57-64).  The header and puzzle number are fixed
after mount and enter the model as parameters. -/
structure Component where
  attempts : List (List Bool)
  totalGuesses : Nat
  won : Bool
  autoGuessing : Bool
  latestHash : String
  latestNonce : Option Int
  errorMsg : String
deriving DecidableEq

/-- The state at mount (source lines 57-64). -/
def initComp : Component :=
  ⟨[], 0, false, false, "", none, ""⟩

/-- The validation error text (source line 83). -/
def invalidNonceMessage : String := "Please enter a valid positive integer"

/-- handleGuess (source lines 80-111).  The nonce argument is the value
the callers produce: parseInt yields NaN (here none) or an exact
integer, and the auto-guesser yields a non-negative integer.  Returns
the updated component state and the success flag the promise resolves
with. -/
def handleGuess (sha256 : List Nat → List Nat) (blockHeader : String)
    (c : Component) (nonce : Option Int) : Component × Bool :=
  match nonce with
  | none => ({ c with errorMsg := invalidNonceMessage }, false)
  | some n =>
    if n < 0 then ({ c with errorMsg := invalidNonceMessage }, false)
    else
      let newHash := calculateHash sha256 (blockHeader ++ jsIntRepr n)
      let result := checkHash newHash
      let c1 : Component :=
        { c with latestHash := newHash, latestNonce := some n,
                 attempts := pushAttempt c.attempts result,
                 totalGuesses := c.totalGuesses + 1 }
      if result.all (fun x => x) then ({ c1 with won := true }, true)
      else (c1, false)

/-! ## Auto-guess scheduler (source lines 119-147)

The effect on dependencies [autoGuessing, won] creates one closure
instance per run; makeGuess and the cleanup capture the render values of
autoGuessing and won (stale inside the closure once the state changes).
The model tags every scheduled timeout and every in-flight digest
computation with the generation number of the effect instance whose
closure created it: the cleanup of an instance can only clear a timeout
scheduled by that same instance (its own timeoutId variable), exactly as
in the source. -/

/-- The values of autoGuessing and won captured by one effect closure. -/
structure Snap where
  auto : Bool
  won : Bool
deriving DecidableEq

/-- The whole-session state: component state, current effect generation
with its captured snapshot, the scheduled timeouts (generation, closure
snapshot), the in-flight digest computations (generation, closure
snapshot, drawn nonce) in resolution order, and the count of Math.random
draws made so far. -/
structure Sys where
  comp : Component
  gen : Nat
  effSnap : Snap
  pending : List (Nat × Snap)
  inflight : List (Nat × Snap × Nat)
  rndIdx : Nat
deriving DecidableEq

/-- The capabilities and fixed data the session runs against: the digest
capability, the Math.random stream (already floored into non-negative
integers as on source line 128), and the block header computed at
mount. -/
structure Config where
  sha256 : List Nat → List Nat
  rnd : Nat → Nat
  blockHeader : String

/-- React commit after a batch of state updates: when the effect
dependencies (autoGuessing, won) changed, run the cleanup of the
outgoing instance (clearTimeout of its own timeoutId, source lines
142-146), then run the new effect body, which calls makeGuess when
autoGuessing holds (source lines 138-140); makeGuess proceeds past its
guard (source line 126) only when the captured autoGuessing is true and
the captured won is false, draws a random nonce and suspends on the
digest computation. -/
def commit (cfg : Config) (s : Sys) : Sys :=
  let snap : Snap := ⟨s.comp.autoGuessing, s.comp.won⟩
  if snap = s.effSnap then s
  else
    let pending := s.pending.filter (fun p => p.1 ≠ s.gen)
    let g := s.gen + 1
    if snap.auto && !snap.won then
      { s with pending := pending, gen := g, effSnap := snap,
               inflight := s.inflight ++ [(g, snap, cfg.rnd s.rndIdx)],
               rndIdx := s.rndIdx + 1 }
    else
      { s with pending := pending, gen := g, effSnap := snap }

/-- The externally visible events of a session: the auto-guess trigger,
the stop action, a manual guess with the parseInt result of the input
(none models NaN), the firing of the earliest scheduled timeout, and the
resolution of the earliest in-flight digest computation. -/
inductive Ev where
  | start
  | stop
  | manual (g : Option Int)
  | fire
  | resolve
deriving DecidableEq

/-- One step of the session.  start and stop run setAutoGuessing (source
lines 119-120); manual runs handleManualGuess, which the interface only
enables while not won and not auto-guessing (source lines 226-236); fire
runs the makeGuess closure of the timeout with its captured snapshot
(source line 134); resolve completes the earliest in-flight iteration:
the awaited handleGuess lands its result on the current state, then the
closure stops on success or reschedules when its captured autoGuessing
is still true (source lines 129-135). -/
def step (cfg : Config) (s : Sys) : Ev → Sys
  | Ev.start => commit cfg { s with comp := { s.comp with autoGuessing := true } }
  | Ev.stop => commit cfg { s with comp := { s.comp with autoGuessing := false } }
  | Ev.manual g =>
      if s.comp.won || s.comp.autoGuessing then s
      else commit cfg { s with comp := (handleGuess cfg.sha256 cfg.blockHeader s.comp g).1 }
  | Ev.fire =>
      match s.pending with
      | [] => s
      | (g, sn) :: rest =>
          if sn.auto && !sn.won then
            { s with pending := rest,
                     inflight := s.inflight ++ [(g, sn, cfg.rnd s.rndIdx)],
                     rndIdx := s.rndIdx + 1 }
          else
            { s with pending := rest }
  | Ev.resolve =>
      match s.inflight with
      | [] => s
      | (g, sn, n) :: rest =>
          let r := handleGuess cfg.sha256 cfg.blockHeader s.comp (some (n : Int))
          let c1 := if r.2 then { r.1 with autoGuessing := false } else r.1
          let pend := if r.2 then s.pending
                      else if sn.auto then s.pending ++ [(g, sn)]
                      else s.pending
          commit cfg { s with comp := c1, inflight := rest, pending := pend }

/-- The session state at mount: fresh component state, effect generation
0 with snapshot (false, false), nothing scheduled, nothing in flight. -/
def initSys : Sys :=
  ⟨initComp, 0, ⟨false, false⟩, [], [], 0⟩

/-- Run a session from mount through a list of events. -/
def run (cfg : Config) (evs : List Ev) : Sys :=
  evs.foldl (step cfg) initSys

/-- Decides that a trace never requests a stop while an auto-guess
iteration is in flight (suspended on its digest computation). -/
def safeRun (cfg : Config) : Sys → List Ev → Bool
  | _, [] => true
  | s, e :: evs =>
      (!(decide (e = Ev.stop)) || s.inflight.isEmpty) && safeRun cfg (step cfg s e) evs

/-! ## Persistence gateway (source lines 6 and 169-192)

localStorage and JSON are browser primitives: the store is a map from
string keys to stored values, and a stored value is either text that
JSON.parse rejects (malformed) or text whose parse is a JSON value,
modelled as an inductive tree.  JSON.stringify of the saved record and
JSON.parse of well-formed text are inverse by the JSON standard; the
model keeps the value form and makes parse failure explicit. -/

/-- A JSON value. -/
inductive Json where
  | null
  | bool (b : Bool)
  | num (n : Int)
  | str (s : String)
  | arr (l : List Json)
  | obj (fields : List (String × Json))

/-- A value held by the store: text that fails JSON.parse, or text that
parses to the given JSON value. -/
inductive StoredVal where
  | malformed
  | wellFormed (j : Json)

/-- The client-local key-value store. -/
def Store : Type := String → Option StoredVal

/-- STORAGE_KEY (source line 6). -/
def STORAGE_KEY (puzzleNumber : Nat) : String :=
  "noncedle-puzzle-" ++ Nat.repr puzzleNumber

/-- The five persisted fields (source lines 185-191). -/
structure SavedRecord where
  attempts : List (List Bool)
  totalGuesses : Nat
  won : Bool
  latestHash : String
  latestNonce : Option Int
deriving DecidableEq

/-- The record the save effect serializes from the component state
(source lines 185-191). -/
def toRecord (c : Component) : SavedRecord :=
  ⟨c.attempts, c.totalGuesses, c.won, c.latestHash, c.latestNonce⟩

/-- Landing a loaded record on the component state: the five setState
calls of loadSavedState (source lines 174-178). -/
def applyRecord (r : SavedRecord) (c : Component) : Component :=
  { c with attempts := r.attempts, totalGuesses := r.totalGuesses,
           won := r.won, latestHash := r.latestHash,
           latestNonce := r.latestNonce }

/-- Serialization of the nullable latestNonce field: JSON null for a
null nonce. -/
def nonceToJson : Option Int → Json
  | none => Json.null
  | some n => Json.num n

/-- JSON.stringify of the saved record (source lines 185-191): an object
with the five keys in source order; a null latestNonce serializes to
JSON null. -/
def recordToJson (r : SavedRecord) : Json :=
  Json.obj
    [("attempts", Json.arr (r.attempts.map (fun a => Json.arr (a.map Json.bool)))),
     ("totalGuesses", Json.num (r.totalGuesses : Int)),
     ("won", Json.bool r.won),
     ("latestHash", Json.str r.latestHash),
     ("latestNonce", nonceToJson r.latestNonce)]

/-- Property lookup on a JSON object (what state.attempts and the other
accesses on source lines 174-178 read). -/
def lookupField : List (String × Json) → String → Option Json
  | [], _ => none
  | (k, v) :: rest, key => if k = key then some v else lookupField rest key

/-- Property access on a JSON value. -/
def getField (j : Json) (key : String) : Option Json :=
  match j with
  | Json.obj fields => lookupField fields key
  | _ => none

/-- Collect a list of optional values, failing when any is missing. -/
def optList {α : Type} : List (Option α) → Option (List α)
  | [] => some []
  | o :: rest => o.bind (fun a => (optList rest).map (fun l => a :: l))

/-- Decode one boolean. -/
def decodeBool : Json → Option Bool
  | Json.bool b => some b
  | _ => none

/-- Decode one attempt (an array of booleans). -/
def decodeAttempt : Json → Option (List Bool)
  | Json.arr l => optList (l.map decodeBool)
  | _ => none

/-- Decode the attempts field (an array of boolean arrays). -/
def decodeAttempts : Json → Option (List (List Bool))
  | Json.arr l => optList (l.map decodeAttempt)
  | _ => none

/-- Decode a non-negative integer counter. -/
def decodeNat : Json → Option Nat
  | Json.num n => if 0 ≤ n then some n.toNat else none
  | _ => none

/-- Decode a string field. -/
def decodeStr : Json → Option String
  | Json.str s => some s
  | _ => none

/-- Decode the nullable latestNonce field. -/
def decodeNonce : Json → Option (Option Int)
  | Json.null => some none
  | Json.num n => some (some n)
  | _ => none

/-- Decode the whole persisted record from a JSON value.  The source
assigns the properties without validation; a shape mismatch there stores
undefined fields whose use crashes later, surfaced here as a decode
failure. -/
def decodeRecord (j : Json) : Option SavedRecord :=
  match getField j "attempts" with
  | none => none
  | some ja =>
    match decodeAttempts ja with
    | none => none
    | some attempts =>
      match getField j "totalGuesses" with
      | none => none
      | some jt =>
        match decodeNat jt with
        | none => none
        | some totalGuesses =>
          match getField j "won" with
          | none => none
          | some jw =>
            match decodeBool jw with
            | none => none
            | some won =>
              match getField j "latestHash" with
              | none => none
              | some jh =>
                match decodeStr jh with
                | none => none
                | some latestHash =>
                  match getField j "latestNonce" with
                  | none => none
                  | some jn =>
                    match decodeNonce jn with
                    | none => none
                    | some latestNonce =>
                      some ⟨attempts, totalGuesses, won, latestHash, latestNonce⟩

/-- loadSavedState (source lines 169-182): a missing record leaves the
state untouched; a present record is parsed by JSON.parse, whose
exception on malformed text is not caught and escapes the effect. -/
def loadSavedState (store : Store) (puzzleNumber : Nat) (c : Component) :
    Except Unit Component :=
  match store (STORAGE_KEY puzzleNumber) with
  | none => Except.ok c
  | some StoredVal.malformed => Except.error ()
  | some (StoredVal.wellFormed j) =>
      match decodeRecord j with
      | some r => Except.ok (applyRecord r c)
      | none => Except.error ()

/-- The save effect (source lines 184-192): stringify the five fields
and setItem under the key of the puzzle number. -/
def saveState (store : Store) (puzzleNumber : Nat) (c : Component) : Store :=
  fun k =>
    if k = STORAGE_KEY puzzleNumber then
      some (StoredVal.wellFormed (recordToJson (toRecord c)))
    else store k

/-! ## Header builder with the entropy environment explicit

The effectful functions of the component receive the ambient browser
environment; the header builder reads none of it: its body uses only the
puzzle number and module constants (startDate is a fixed literal, source
line 10), so the translation returns the environment untouched. -/

/-- The ambient sources of nondeterminism available to the component:
the Math.random stream and the current clock value. -/
structure EntropyEnv where
  randoms : Nat → Nat
  nowMs : Nat

/-- generateMockBlockHeader as run inside the browser environment: the
function consults neither Math.random nor the clock. -/
def generateMockBlockHeaderRun (env : EntropyEnv) (puzzleNumber : Nat) :
    String × EntropyEnv :=
  (generateMockBlockHeader puzzleNumber, env)

/-! ## Helper lemmas -/

lemma toDigits16_length_le_two : ∀ b, b < 256 → (Nat.toDigits 16 b).length ≤ 2 := by
  decide

lemma byteToHex_length {b : Nat} (hb : b < 256) : (byteToHex b).length = 2 := by
  have h := toDigits16_length_le_two b hb
  simp only [byteToHex, padStart, List.length_append, List.length_replicate]
  omega

lemma flatten_byteToHex_length :
    ∀ bs : List Nat, (∀ b ∈ bs, b < 256) →
      ((bs.map byteToHex).flatten).length = 2 * bs.length := by
  intro bs
  induction bs with
  | nil => intro _; simp
  | cons b rest ih =>
      intro hall
      have hb : b < 256 := hall b (List.mem_cons_self b rest)
      have hrest : ∀ x ∈ rest, x < 256 := fun x hx => hall x (List.mem_cons_of_mem b hx)
      simp only [List.map_cons, List.flatten_cons, List.length_append,
        byteToHex_length hb, ih hrest, List.length_cons]
      ring

lemma calculateHash_length {sha256 : List Nat → List Nat} {input : String}
    (hlen : (sha256 (utf8Bytes input)).length = 32)
    (hbytes : ∀ b ∈ sha256 (utf8Bytes input), b < 256) :
    (calculateHash sha256 input).length = 64 := by
  show (((sha256 (utf8Bytes input)).map byteToHex).flatten).length = 64
  rw [flatten_byteToHex_length (sha256 (utf8Bytes input)) hbytes, hlen]

lemma checkHash_length {hash : String} (h : 4 ≤ hash.length) :
    (checkHash hash).length = LEADING_ZEROES := by
  have : hash.data.length = hash.length := rfl
  simp only [checkHash, LEADING_ZEROES, List.length_map, List.length_take]
  omega

lemma checkHash_getElem {hash : String} (h : 4 ≤ hash.length) (i : Nat)
    (hi : i < LEADING_ZEROES) :
    ((checkHash hash)[i]? = some true ↔ hash.data[i]? = some '0') := by
  have hi4 : i < 4 := hi
  have hdl : hash.data.length = hash.length := rfl
  have hil : i < hash.data.length := by omega
  simp only [checkHash, LEADING_ZEROES, List.getElem?_map]
  rw [List.getElem?_take, if_pos hi4, List.getElem?_eq_getElem hil]
  simp

lemma handleGuess_valid {sha256 : List Nat → List Nat} {blockHeader : String}
    {c : Component} {n : Int} (hn : 0 ≤ n) :
    (handleGuess sha256 blockHeader c (some n)).1 =
      (let newHash := calculateHash sha256 (blockHeader ++ jsIntRepr n)
       let result := checkHash newHash
       { c with latestHash := newHash, latestNonce := some n,
                attempts := pushAttempt c.attempts result,
                totalGuesses := c.totalGuesses + 1,
                won := if result.all (fun x => x) then true else c.won }) := by
  simp only [handleGuess, Int.not_lt.mpr hn, if_false]
  split
  · next hall => simp [hall]
  · next hall => simp [hall]

/-! ## Claim C1 -/

/-- Claim C1: for every header string and every valid non-negative integer
nonce, the guess evaluation computes the digest (the SHA-256 capability)
of the UTF-8 bytes of the header concatenated with the decimal text form
of the nonce, hex-encodes it in lowercase to 64 characters, and records a
result of length exactly LEADING_ZEROES (4 in this deployment) whose
i-th entry is true exactly when the i-th hex character of the digest is
the zero character. -/
theorem hashEvaluator_correct (sha256 : List Nat → List Nat) (h : String)
    (c : Component) (n : Int) (hn : 0 ≤ n)
    (hlen : (sha256 (utf8Bytes (h ++ jsIntRepr n))).length = 32)
    (hbytes : ∀ b ∈ sha256 (utf8Bytes (h ++ jsIntRepr n)), b < 256) :
    (handleGuess sha256 h c (some n)).1.latestHash
        = calculateHash sha256 (h ++ jsIntRepr n) ∧
    (handleGuess sha256 h c (some n)).1.attempts
        = pushAttempt c.attempts (checkHash (calculateHash sha256 (h ++ jsIntRepr n))) ∧
    (calculateHash sha256 (h ++ jsIntRepr n)).length = 64 ∧
    (checkHash (calculateHash sha256 (h ++ jsIntRepr n))).length = LEADING_ZEROES ∧
    (∀ i, i < LEADING_ZEROES →
      ((checkHash (calculateHash sha256 (h ++ jsIntRepr n)))[i]? = some true ↔
        (calculateHash sha256 (h ++ jsIntRepr n)).data[i]? = some '0')) := by
  have h64 : (calculateHash sha256 (h ++ jsIntRepr n)).length = 64 :=
    calculateHash_length hlen hbytes
  have h4 : 4 ≤ (calculateHash sha256 (h ++ jsIntRepr n)).length := by omega
  refine ⟨?_, ?_, h64, checkHash_length h4, fun i hi => checkHash_getElem h4 i hi⟩
  · rw [handleGuess_valid hn]
  · rw [handleGuess_valid hn]

/-- Witness for C1 at a concrete digest capability, header and nonce. -/
theorem hashEvaluator_correct_witness :
    (0 : Int) ≤ 0 ∧
    (handleGuess (fun _ => List.replicate 32 0) "X" initComp (some 0)).1.latestHash
      = calculateHash (fun _ => List.replicate 32 0) ("X" ++ jsIntRepr 0) ∧
    (checkHash (calculateHash (fun _ => List.replicate 32 0) ("X" ++ jsIntRepr 0))).length
      = LEADING_ZEROES :=
  ⟨by decide,
   (hashEvaluator_correct (fun _ => List.replicate 32 0) "X" initComp 0
      (by decide) (by decide) (by decide)).1,
   (hashEvaluator_correct (fun _ => List.replicate 32 0) "X" initComp 0
      (by decide) (by decide) (by decide)).2.2.2.1⟩

/-! ## Claim C4 -/

/-- The inputs the guess handler rejects: the parseInt result is NaN
(non-numeric input) or a negative integer. -/
def invalidGuessInput (g : Option Int) : Prop :=
  g = none ∨ ∃ n, g = some n ∧ n < 0

/-- Claim C4: over the guess inputs the program can produce (parseInt
yields NaN or an exact integer; the auto-guesser yields a non-negative
integer), the guess handler rejects exactly the inputs that are not
non-negative integers: it sets the user-visible error message, returns
false, leaves the attempt ledger, totalGuesses, latestHash and
latestNonce unchanged, and the rejection is decided before the digest
computation (the outcome does not depend on the digest capability).
Valid inputs are never rejected: they increment the counter and leave
the error message alone. -/
theorem invalidNonce_rejected (sha256 sha256b : List Nat → List Nat)
    (h : String) (c : Component) (g : Option Int) :
    (invalidGuessInput g →
      handleGuess sha256 h c g = ({ c with errorMsg := invalidNonceMessage }, false) ∧
      handleGuess sha256 h c g = handleGuess sha256b h c g) ∧
    (¬ invalidGuessInput g →
      (handleGuess sha256 h c g).1.totalGuesses = c.totalGuesses + 1 ∧
      (handleGuess sha256 h c g).1.errorMsg = c.errorMsg) := by
  constructor
  · intro hg
    have hg' : g = none ∨ ∃ n, g = some n ∧ n < 0 := hg
    rcases hg' with hnone | ⟨n, hsome, hneg⟩
    · subst hnone
      exact ⟨rfl, rfl⟩
    · subst hsome
      refine ⟨?_, ?_⟩ <;> simp only [handleGuess, if_pos hneg]
  · intro hvalid
    have hg' : ¬ (g = none ∨ ∃ n, g = some n ∧ n < 0) := hvalid
    rcases g with _ | n
    · exact absurd (Or.inl rfl) hg'
    · have hn : 0 ≤ n := by
        by_contra hneg
        exact hg' (Or.inr ⟨n, rfl, by omega⟩)
      rw [handleGuess_valid hn]
      exact ⟨rfl, rfl⟩

/-- Witness for C4 at the nonce -5 of the spec scenario: rejected with
the error message, ledger and counter untouched. -/
theorem invalidNonce_rejected_witness :
    invalidGuessInput (some (-5)) ∧
    handleGuess (fun _ => []) "H" initComp (some (-5))
      = ({ initComp with errorMsg := invalidNonceMessage }, false) :=
  ⟨Or.inr ⟨-5, rfl, by decide⟩,
   ((invalidNonce_rejected (fun _ => []) (fun _ => []) "H" initComp
      (some (-5))).1 (Or.inr ⟨-5, rfl, by decide⟩)).1⟩

/-! ## Claim C10 -/

/-- Claim C10: the guess handler itself has no win guard: with the win
flag already set, a valid non-negative nonce still has its digest
computed, a new attempt appended to the ledger and totalGuesses
incremented; only the surrounding interface and the auto-guess loop
guard prevent post-win guesses. -/
theorem handleGuess_no_win_guard (sha256 : List Nat → List Nat) (h : String)
    (c : Component) (n : Int) (hn : 0 ≤ n) (hwon : c.won = true) :
    (handleGuess sha256 h c (some n)).1.latestHash
        = calculateHash sha256 (h ++ jsIntRepr n) ∧
    (handleGuess sha256 h c (some n)).1.latestNonce = some n ∧
    (handleGuess sha256 h c (some n)).1.attempts
        = pushAttempt c.attempts (checkHash (calculateHash sha256 (h ++ jsIntRepr n))) ∧
    (handleGuess sha256 h c (some n)).1.totalGuesses = c.totalGuesses + 1 := by
  rw [handleGuess_valid hn]
  exact ⟨rfl, rfl, rfl, rfl⟩

/-- Witness for C10: a guess recorded on a state whose win flag is set. -/
theorem handleGuess_no_win_guard_witness :
    (0 : Int) ≤ 3 ∧ ({ initComp with won := true } : Component).won = true ∧
    (handleGuess (fun _ => []) "H" { initComp with won := true } (some 3)).1.totalGuesses
      = ({ initComp with won := true } : Component).totalGuesses + 1 :=
  ⟨by decide, rfl,
   (handleGuess_no_win_guard (fun _ => []) "H" { initComp with won := true } 3
      (by decide) rfl).2.2.2⟩

/-! ## Claim C3 -/

lemma pushAttempt_eq_drop {prev : List (List Bool)} (hlen : prev.length ≤ 1000)
    (result : List Bool) :
    pushAttempt prev result = (prev ++ [result]).drop ((prev.length + 1) - 1000) := by
  simp only [pushAttempt, List.length_append, List.length_cons, List.length_nil]
  split
  · next hgt => rfl
  · next hle =>
      have : prev.length + 1 - 1000 = 0 := by omega
      rw [this, List.drop_zero]

lemma pushAttempt_length {prev : List (List Bool)} (hlen : prev.length ≤ 1000)
    (result : List Bool) :
    (pushAttempt prev result).length = min (prev.length + 1) 1000 := by
  rw [pushAttempt_eq_drop hlen result]
  simp only [List.length_drop, List.length_append, List.length_cons, List.length_nil]
  omega

lemma foldl_recordAttempt (rs : List (List Bool)) :
    ∀ (acc : List (List Bool)) (tg : Nat), acc.length ≤ 1000 →
      rs.foldl recordAttempt (acc, tg)
        = ((acc ++ rs).drop ((acc.length + rs.length) - 1000), tg + rs.length) := by
  induction rs with
  | nil =>
      intro acc tg hlen
      simp only [List.foldl_nil, List.append_nil, List.length_nil, Nat.add_zero]
      rw [Nat.sub_eq_zero_of_le hlen, List.drop_zero]
  | cons r rest ih =>
      intro acc tg hlen
      have hpush : (pushAttempt acc r).length ≤ 1000 := by
        rw [pushAttempt_length hlen r]; omega
      rw [List.foldl_cons]
      have hrec : recordAttempt (acc, tg) r = (pushAttempt acc r, tg + 1) := rfl
      rw [hrec, ih (pushAttempt acc r) (tg + 1) hpush]
      simp only [Prod.mk.injEq]
      refine ⟨?_, ?_⟩
      · rw [pushAttempt_eq_drop hlen r]
        have hd0 : (acc.length + 1) - 1000 ≤ (acc ++ [r]).length := by
          simp only [List.length_append, List.length_cons, List.length_nil]
          omega
        rw [← List.drop_append_of_le_length hd0, List.drop_drop]
        have hx : (acc ++ [r]) ++ rest = acc ++ r :: rest := by simp
        rw [hx]
        congr 1
        simp only [List.length_drop, List.length_append, List.length_cons,
          List.length_nil]
        omega
      · simp only [List.length_cons]
        omega

/-- Claim C3: recording any sequence of attempts from the fresh ledger
keeps the attempt sequence at no more than 1000 entries, always equal to
the most recent entries of the full sequence (oldest dropped from the
front on overflow), while totalGuesses counts every recorded attempt,
grows by exactly one per record (so it is never decremented) and is
unbounded; after a 1001st recorded attempt, the ledger holds exactly the
most recent 1000 and totalGuesses reads 1001. -/
theorem attemptLedger_bounded (rs : List (List Bool)) :
    ((rs.foldl recordAttempt ([], 0)).1 = rs.drop (rs.length - 1000) ∧
     (rs.foldl recordAttempt ([], 0)).1.length ≤ 1000 ∧
     (rs.foldl recordAttempt ([], 0)).2 = rs.length) ∧
    (∀ st r, (recordAttempt st r).2 = st.2 + 1) ∧
    (rs.length = 1001 →
      (rs.foldl recordAttempt ([], 0)).1 = rs.drop 1 ∧
      (rs.foldl recordAttempt ([], 0)).2 = 1001) := by
  have hfold := foldl_recordAttempt rs [] 0 (by simp)
  simp only [List.nil_append, List.length_nil, Nat.zero_add] at hfold
  refine ⟨⟨?_, ?_, ?_⟩, fun st r => rfl, ?_⟩
  · rw [hfold]
  · rw [hfold]
    simp only [List.length_drop]
    omega
  · rw [hfold]
  · intro h1001
    rw [hfold, h1001]
    exact ⟨rfl, rfl⟩

/-- Witness for C3 at the 1001-attempt scenario of the spec. -/
theorem attemptLedger_bounded_witness :
    (List.replicate 1001 ([true] : List Bool)).length = 1001 ∧
    ((List.replicate 1001 ([true] : List Bool)).foldl recordAttempt ([], 0)).2 = 1001 :=
  ⟨by simp,
   ((attemptLedger_bounded (List.replicate 1001 [true])).2.2 (by simp)).2⟩

/-! ## Claim C6 -/

lemma merkleChunk_length (v : Nat) : (merkleChunk v).length = 2 := by
  simp only [merkleChunk, padStart, List.length_take, List.length_append,
    List.length_replicate]
  omega

lemma drawList_length : ∀ (k : Nat) (s : XState), (drawList k s).1.length = k := by
  intro k
  induction k with
  | zero => intro s; rfl
  | succ m ih =>
      intro s
      simp only [drawList, List.length_cons, ih]

lemma merkleHexChars_length (puzzleNumber : Nat) :
    (merkleHexChars puzzleNumber).length = 64 := by
  have hmap : ∀ l : List Nat, ((l.map merkleChunk).flatten).length = 2 * l.length := by
    intro l
    induction l with
    | nil => simp
    | cons v rest ih =>
        simp only [List.map_cons, List.flatten_cons, List.length_append,
          merkleChunk_length, ih, List.length_cons]
        ring
  simp only [merkleHexChars, hmap, drawList_length]

/-- Claim C6: for every puzzle number at least 1, the header builder
emits the fixed field order version, prev, height, timestamp, merkle;
the height field is the puzzle number, the prev field embeds the
predecessor puzzle number after a fixed zero padding, the timestamp is
the fixed epoch milliseconds of the start date plus one day of
milliseconds per elapsed puzzle, and the merkle field always has exactly
64 hex characters, so the output length is a fixed function of the
rendered numbers. -/
theorem headerBuilder_fields (puzzleNumber : Nat) (hpn : 1 ≤ puzzleNumber) :
    generateMockBlockHeader puzzleNumber
      = "version=2;prev=00000000000000000" ++ Nat.repr (puzzleNumber - 1) ++
        ";height=" ++ Nat.repr puzzleNumber ++
        ";timestamp=" ++ Nat.repr (1732838400000 + (puzzleNumber - 1) * 86400000) ++
        ";merkle=" ++ merkleHex puzzleNumber ∧
    (merkleHex puzzleNumber).length = 64 ∧
    startDateMs = 1732838400000 := by
  refine ⟨?_, merkleHexChars_length puzzleNumber, rfl⟩
  have harith : startDateMs + (puzzleNumber - 1) * (24 * 60 * 60 * 1000)
      = 1732838400000 + (puzzleNumber - 1) * 86400000 := by
    simp only [startDateMs]
  simp only [generateMockBlockHeader, harith]

/-- Witness for C6 at the first puzzle. -/
theorem headerBuilder_fields_witness :
    1 ≤ 1 ∧ (merkleHex 1).length = 64 :=
  ⟨by decide, (headerBuilder_fields 1 (by decide)).2.1⟩

/-! ## Claim C8 -/

/-- Claim C8: the header builder is deterministic: run in any two
browser environments (any Math.random stream, any clock value) it
returns byte-identical output for the same puzzle number, it equals the
pure function of the puzzle number, and an immediately repeated call in
the environment returned by the first call yields the same string, so
the output depends neither on external entropy nor on call history. -/
theorem headerBuilder_deterministic (puzzleNumber : Nat) (hpn : 1 ≤ puzzleNumber)
    (e1 e2 : EntropyEnv) :
    (generateMockBlockHeaderRun e1 puzzleNumber).1
      = (generateMockBlockHeaderRun e2 puzzleNumber).1 ∧
    (generateMockBlockHeaderRun e1 puzzleNumber).1
      = generateMockBlockHeader puzzleNumber ∧
    (generateMockBlockHeaderRun
        (generateMockBlockHeaderRun e1 puzzleNumber).2 puzzleNumber).1
      = (generateMockBlockHeaderRun e1 puzzleNumber).1 := by
  exact ⟨rfl, rfl, rfl⟩

/-- Witness for C8 at the first puzzle and two distinct environments. -/
theorem headerBuilder_deterministic_witness :
    1 ≤ 1 ∧
    (generateMockBlockHeaderRun ⟨fun _ => 0, 0⟩ 1).1
      = (generateMockBlockHeaderRun ⟨fun k => k + 7, 123456⟩ 1).1 :=
  ⟨by decide,
   (headerBuilder_deterministic 1 (by decide) ⟨fun _ => 0, 0⟩
      ⟨fun k => k + 7, 123456⟩).1⟩

/-! ## Claim C9 -/

lemma optList_map_some {α : Type} (l : List α) : optList (l.map some) = some l := by
  induction l with
  | nil => rfl
  | cons a rest ih =>
      simp only [List.map_cons, optList, ih]
      rfl

lemma decodeAttempt_roundtrip (a : List Bool) :
    decodeAttempt (Json.arr (a.map Json.bool)) = some a := by
  have hcomp : (a.map Json.bool).map decodeBool = a.map some := by
    rw [List.map_map]; rfl
  simp only [decodeAttempt, hcomp, optList_map_some]

lemma decodeAttempts_roundtrip (l : List (List Bool)) :
    decodeAttempts (Json.arr (l.map (fun a => Json.arr (a.map Json.bool)))) = some l := by
  have hcomp : (l.map (fun a => Json.arr (a.map Json.bool))).map decodeAttempt
      = l.map some := by
    rw [List.map_map]
    apply List.map_congr_left
    intro a _
    exact decodeAttempt_roundtrip a
  simp only [decodeAttempts, hcomp, optList_map_some]

lemma decodeNat_roundtrip (t : Nat) : decodeNat (Json.num (t : Int)) = some t := by
  simp only [decodeNat, if_pos (Int.natCast_nonneg t), Int.toNat_natCast]

lemma decodeNonce_roundtrip (no : Option Int) :
    decodeNonce (nonceToJson no) = some no := by
  cases no <;> rfl

lemma decodeRecord_roundtrip (r : SavedRecord) :
    decodeRecord (recordToJson r) = some r := by
  obtain ⟨a, t, w, h, no⟩ := r
  have h1 : getField (recordToJson ⟨a, t, w, h, no⟩) "attempts"
      = some (Json.arr (a.map (fun x => Json.arr (x.map Json.bool)))) := rfl
  have h2 : getField (recordToJson ⟨a, t, w, h, no⟩) "totalGuesses"
      = some (Json.num (t : Int)) := rfl
  have h3 : getField (recordToJson ⟨a, t, w, h, no⟩) "won"
      = some (Json.bool w) := rfl
  have h4 : getField (recordToJson ⟨a, t, w, h, no⟩) "latestHash"
      = some (Json.str h) := rfl
  have h5 : getField (recordToJson ⟨a, t, w, h, no⟩) "latestNonce"
      = some (nonceToJson no) := rfl
  simp only [decodeRecord, h1, h2, h3, h4, h5, decodeAttempts_roundtrip,
    decodeNat_roundtrip, decodeNonce_roundtrip, decodeBool, decodeStr]

/-- Claim C9: loading a puzzle number immediately after saving it, with
no intervening mutation of the store, succeeds and returns a state that
agrees with the saved one on all five persisted fields (attempts,
totalGuesses, won, latestHash, latestNonce), through the serialized
record. -/
theorem persistence_roundtrip (store : Store) (puzzleNumber : Nat)
    (c c0 : Component) :
    loadSavedState (saveState store puzzleNumber c) puzzleNumber c0
      = Except.ok (applyRecord (toRecord c) c0) ∧
    (applyRecord (toRecord c) c0).attempts = c.attempts ∧
    (applyRecord (toRecord c) c0).totalGuesses = c.totalGuesses ∧
    (applyRecord (toRecord c) c0).won = c.won ∧
    (applyRecord (toRecord c) c0).latestHash = c.latestHash ∧
    (applyRecord (toRecord c) c0).latestNonce = c.latestNonce := by
  refine ⟨?_, rfl, rfl, rfl, rfl, rfl⟩
  have hkey : saveState store puzzleNumber c (STORAGE_KEY puzzleNumber)
      = some (StoredVal.wellFormed (recordToJson (toRecord c))) := by
    simp only [saveState, if_pos]
  simp only [loadSavedState, hkey, decodeRecord_roundtrip]

/-! ## Claim C7 -/

/-- Counterexample to claim C7: a malformed stored record does not
behave as a missing one.  JSON.parse throws inside the load effect and
nothing catches it, so the load fails instead of leaving the fresh
initial state. -/
theorem loadSavedState_malformed_fails :
    loadSavedState (fun _ => some StoredVal.malformed) 1 initComp = Except.error () ∧
    loadSavedState (fun _ => some StoredVal.malformed) 1 initComp
      ≠ Except.ok initComp := by
  refine ⟨rfl, ?_⟩
  intro h
  exact Except.noConfusion h

/-- Claim C7 as amended: a missing stored record behaves as no prior
record, leaving the caller with its fresh initial state and raising no
failure; a malformed stored record, however, makes the load throw (the
JSON.parse exception is not caught), so only the missing-record half of
the original claim holds. -/
theorem persistence_read_fallback (store : Store) (puzzleNumber : Nat)
    (c : Component) :
    (store (STORAGE_KEY puzzleNumber) = none →
      loadSavedState store puzzleNumber c = Except.ok c) ∧
    (store (STORAGE_KEY puzzleNumber) = some StoredVal.malformed →
      loadSavedState store puzzleNumber c = Except.error ()) := by
  constructor <;> intro h <;> simp only [loadSavedState, h]

/-- Witness for the amended C7 at an empty store. -/
theorem persistence_read_fallback_witness :
    ((fun _ => none : Store) (STORAGE_KEY 1) = none) ∧
    loadSavedState (fun _ => none) 1 initComp = Except.ok initComp :=
  ⟨rfl, (persistence_read_fallback (fun _ => none) 1 initComp).1 rfl⟩

/-! ## Scheduler invariants (claims C2 and C5)

The session invariant below holds along every trace that never requests
a stop while an iteration is in flight.  It ties the win flag to the
ledger, keeps the effect snapshot in sync with the component state, and
pins every scheduled timeout and in-flight iteration to the live effect
generation with an active, not-yet-won snapshot. -/

/-- The inductive session invariant. -/
structure Inv (s : Sys) : Prop where
  winIff : s.comp.won = true ↔ ∃ a ∈ s.comp.attempts, a.all (fun x => x) = true
  snapSync : s.effSnap = ⟨s.comp.autoGuessing, s.comp.won⟩
  pendSnap : ∀ p ∈ s.pending, p.2 = Snap.mk true false ∧ p.1 = s.gen
  pendActive : s.pending ≠ [] → s.comp.autoGuessing = true ∧ s.comp.won = false
  flightSnap : ∀ q ∈ s.inflight, q.2.1 = Snap.mk true false ∧ q.1 = s.gen
  flightActive : s.inflight ≠ [] → s.comp.autoGuessing = true ∧ s.comp.won = false
  oneSlot : s.pending = [] ∨ s.inflight = []
  pendLen : s.pending.length ≤ 1
  flightLen : s.inflight.length ≤ 1

lemma inv_init : Inv initSys := by
  refine ⟨?_, rfl, ?_, ?_, ?_, ?_, Or.inl rfl, ?_, ?_⟩ <;> simp [initSys, initComp]

lemma mem_pushAttempt_self (prev : List (List Bool)) (r : List Bool) :
    r ∈ pushAttempt prev r := by
  simp only [pushAttempt]
  split
  · next hgt =>
      have hle : (prev ++ [r]).length - 1000 ≤ prev.length := by
        simp only [List.length_append, List.length_cons, List.length_nil]
        omega
      rw [List.drop_append_of_le_length hle]
      exact List.mem_append_right _ (List.mem_singleton.mpr rfl)
  · next hle =>
      exact List.mem_append_right _ (List.mem_singleton.mpr rfl)

lemma mem_pushAttempt_cases {prev : List (List Bool)} {r a : List Bool}
    (h : a ∈ pushAttempt prev r) : a ∈ prev ∨ a = r := by
  have hsub : a ∈ prev ++ [r] := by
    simp only [pushAttempt] at h
    split at h
    · exact List.drop_subset _ _ h
    · exact h
  rcases List.mem_append.mp hsub with hl | hr
  · exact Or.inl hl
  · exact Or.inr (List.mem_singleton.mp hr)

lemma handleGuess_some {sha256 : List Nat → List Nat} {blockHeader : String}
    {c : Component} {n : Int} (hn : 0 ≤ n) :
    handleGuess sha256 blockHeader c (some n)
      = ({ c with
            latestHash := calculateHash sha256 (blockHeader ++ jsIntRepr n),
            latestNonce := some n,
            attempts := pushAttempt c.attempts
              (checkHash (calculateHash sha256 (blockHeader ++ jsIntRepr n))),
            totalGuesses := c.totalGuesses + 1,
            won := if (checkHash (calculateHash sha256 (blockHeader ++ jsIntRepr n))).all
                      (fun x => x) then true else c.won },
         (checkHash (calculateHash sha256 (blockHeader ++ jsIntRepr n))).all
           (fun x => x)) := by
  simp only [handleGuess, Int.not_lt.mpr hn, if_false]
  split
  · next hall => simp [hall]
  · next hall => simp [hall]

lemma winIff_after_record {sha256 : List Nat → List Nat} {blockHeader : String}
    {c : Component} {n : Int} (hn : 0 ≤ n) (hwon : c.won = false)
    (hiff : c.won = true ↔ ∃ a ∈ c.attempts, a.all (fun x => x) = true) :
    ((handleGuess sha256 blockHeader c (some n)).1.won = true ↔
      ∃ a ∈ (handleGuess sha256 blockHeader c (some n)).1.attempts,
        a.all (fun x => x) = true) := by
  rw [handleGuess_some hn]
  by_cases hall : (checkHash (calculateHash sha256 (blockHeader ++ jsIntRepr n))).all
      (fun x => x) = true
  · simp only [hall, if_pos]
    constructor
    · intro _
      exact ⟨_, mem_pushAttempt_self c.attempts _, hall⟩
    · intro _
      trivial
  · have hallf : (checkHash (calculateHash sha256 (blockHeader ++ jsIntRepr n))).all
        (fun x => x) = false := by
      cases hb : (checkHash (calculateHash sha256 (blockHeader ++ jsIntRepr n))).all
          (fun x => x)
      · rfl
      · exact absurd hb hall
    simp only [hallf, Bool.false_eq_true, if_false]
    constructor
    · intro hwc
      exact absurd hwc (by rw [hwon]; exact Bool.false_ne_true)
    · intro ⟨a, ha, hatrue⟩
      rcases mem_pushAttempt_cases ha with hin | heq
      · exact hiff.mpr ⟨a, hin, hatrue⟩
      · subst heq
        rw [hatrue] at hallf
        exact absurd hallf (by simp)

lemma filter_ne_gen_nil {l : List (Nat × Snap)} {g : Nat}
    (h : ∀ p ∈ l, p.1 = g) : l.filter (fun p => p.1 ≠ g) = [] := by
  induction l with
  | nil => rfl
  | cons p rest ih =>
      have hp := h p (List.mem_cons_self p rest)
      have hrest : ∀ q ∈ rest, q.1 = g := fun q hq => h q (List.mem_cons_of_mem p hq)
      rw [List.filter_cons, if_neg (by simp [hp])]
      exact ih hrest

lemma commit_eq_self {cfg : Config} {s : Sys}
    (h : (⟨s.comp.autoGuessing, s.comp.won⟩ : Snap) = s.effSnap) :
    commit cfg s = s := by
  simp only [commit, if_pos h]

lemma commit_active {cfg : Config} {s : Sys}
    (h : (⟨s.comp.autoGuessing, s.comp.won⟩ : Snap) ≠ s.effSnap)
    (ha : s.comp.autoGuessing = true) (hw : s.comp.won = false) :
    commit cfg s =
      { s with pending := s.pending.filter (fun p => p.1 ≠ s.gen),
               gen := s.gen + 1,
               effSnap := ⟨s.comp.autoGuessing, s.comp.won⟩,
               inflight := s.inflight ++
                 [(s.gen + 1, ⟨s.comp.autoGuessing, s.comp.won⟩, cfg.rnd s.rndIdx)],
               rndIdx := s.rndIdx + 1 } := by
  simp only [commit, ha, hw, Bool.not_false, Bool.and_self,
    eq_self_iff_true, if_true]
  rw [if_neg (by rw [← ha, ← hw]; exact h)]

lemma commit_idle {cfg : Config} {s : Sys}
    (h : (⟨s.comp.autoGuessing, s.comp.won⟩ : Snap) ≠ s.effSnap)
    (hcond : s.comp.autoGuessing = false ∨ s.comp.won = true) :
    commit cfg s =
      { s with pending := s.pending.filter (fun p => p.1 ≠ s.gen),
               gen := s.gen + 1,
               effSnap := ⟨s.comp.autoGuessing, s.comp.won⟩ } := by
  rcases hcond with hf | ht
  · simp only [commit, hf, Bool.false_and, Bool.false_eq_true, if_false]
    rw [if_neg (by rw [← hf]; exact h)]
  · simp only [commit, ht, Bool.not_true, Bool.and_false,
      Bool.false_eq_true, if_false]
    rw [if_neg (by rw [← ht]; exact h)]

lemma pending_nil_of_not_auto {s : Sys} (h : Inv s)
    (hA : s.comp.autoGuessing = false) : s.pending = [] := by
  rcases hpe : s.pending with _ | ⟨p, rest⟩
  · rfl
  · exfalso
    have := (h.pendActive (by rw [hpe]; simp)).1
    rw [hA] at this
    exact Bool.false_ne_true this

lemma inflight_nil_of_not_auto {s : Sys} (h : Inv s)
    (hA : s.comp.autoGuessing = false) : s.inflight = [] := by
  rcases hfe : s.inflight with _ | ⟨q, rest⟩
  · rfl
  · exfalso
    have := (h.flightActive (by rw [hfe]; simp)).1
    rw [hA] at this
    exact Bool.false_ne_true this

lemma pending_nil_of_won {s : Sys} (h : Inv s)
    (hW : s.comp.won = true) : s.pending = [] := by
  rcases hpe : s.pending with _ | ⟨p, rest⟩
  · rfl
  · exfalso
    have := (h.pendActive (by rw [hpe]; simp)).2
    rw [hW] at this
    exact Bool.noConfusion this

lemma inflight_nil_of_won {s : Sys} (h : Inv s)
    (hW : s.comp.won = true) : s.inflight = [] := by
  rcases hfe : s.inflight with _ | ⟨q, rest⟩
  · rfl
  · exfalso
    have := (h.flightActive (by rw [hfe]; simp)).2
    rw [hW] at this
    exact Bool.noConfusion this

/-- The invariant survives a React commit: it suffices that the win
characterization holds, every pending timeout and in-flight iteration is
pinned to the live generation with the active snapshot, the residual
slot discipline holds when the dependencies did not change, and nothing
is in flight when they did. -/
lemma inv_commit (cfg : Config) (s : Sys)
    (hwin : s.comp.won = true ↔ ∃ a ∈ s.comp.attempts, a.all (fun x => x) = true)
    (hpendSnap : ∀ p ∈ s.pending, p.2 = Snap.mk true false ∧ p.1 = s.gen)
    (hflightSnap : ∀ q ∈ s.inflight, q.2.1 = Snap.mk true false ∧ q.1 = s.gen)
    (hsync : s.effSnap = ⟨s.comp.autoGuessing, s.comp.won⟩ →
      ((s.pending ≠ [] → s.comp.autoGuessing = true ∧ s.comp.won = false) ∧
       (s.inflight ≠ [] → s.comp.autoGuessing = true ∧ s.comp.won = false) ∧
       (s.pending = [] ∨ s.inflight = []) ∧
       s.pending.length ≤ 1 ∧ s.inflight.length ≤ 1))
    (hstale : s.effSnap ≠ ⟨s.comp.autoGuessing, s.comp.won⟩ → s.inflight = []) :
    Inv (commit cfg s) := by
  by_cases heq : (⟨s.comp.autoGuessing, s.comp.won⟩ : Snap) = s.effSnap
  · rw [commit_eq_self heq]
    obtain ⟨h1, h2, h3, h4, h5⟩ := hsync heq.symm
    exact ⟨hwin, heq.symm, hpendSnap, h1, hflightSnap, h2, h3, h4, h5⟩
  · have hflight : s.inflight = [] := hstale (fun hc => heq hc.symm)
    have hpendnil : s.pending.filter (fun p => p.1 ≠ s.gen) = [] :=
      filter_ne_gen_nil (fun p hp => (hpendSnap p hp).2)
    by_cases hact : s.comp.autoGuessing = true ∧ s.comp.won = false
    · rw [commit_active heq hact.1 hact.2]
      refine ⟨hwin, rfl, ?_, ?_, ?_, ?_, ?_, ?_, ?_⟩
      · intro p hp
        rw [hpendnil] at hp
        exact absurd hp (List.not_mem_nil p)
      · intro hne
        exact absurd hpendnil hne
      · intro q hq
        rw [hflight] at hq
        simp only [List.nil_append, List.mem_singleton] at hq
        subst hq
        exact ⟨by rw [hact.1, hact.2], rfl⟩
      · intro _
        exact ⟨hact.1, hact.2⟩
      · exact Or.inl hpendnil
      · rw [hpendnil]
        simp
      · rw [hflight]
        simp
    · have hcond : s.comp.autoGuessing = false ∨ s.comp.won = true := by
        cases hA : s.comp.autoGuessing
        · exact Or.inl rfl
        · cases hW : s.comp.won
          · exact absurd ⟨hA, hW⟩ hact
          · exact Or.inr rfl
      rw [commit_idle heq hcond]
      refine ⟨hwin, rfl, ?_, ?_, ?_, ?_, ?_, ?_, ?_⟩
      · intro p hp
        rw [hpendnil] at hp
        exact absurd hp (List.not_mem_nil p)
      · intro hne
        exact absurd hpendnil hne
      · intro q hq
        rw [hflight] at hq
        exact absurd hq (List.not_mem_nil q)
      · intro hne
        exact absurd hflight hne
      · exact Or.inl hpendnil
      · rw [hpendnil]
        simp
      · rw [hflight]
        simp

lemma inv_step_start (cfg : Config) {s : Sys} (h : Inv s) :
    Inv (step cfg s Ev.start) := by
  show Inv (commit cfg { s with comp := { s.comp with autoGuessing := true } })
  apply inv_commit
  · exact h.winIff
  · exact h.pendSnap
  · exact h.flightSnap
  · intro _
    refine ⟨?_, ?_, h.oneSlot, h.pendLen, h.flightLen⟩
    · intro hne
      exact ⟨rfl, (h.pendActive hne).2⟩
    · intro hne
      exact ⟨rfl, (h.flightActive hne).2⟩
  · intro hne
    by_cases hA : s.comp.autoGuessing = true
    · exfalso
      apply hne
      rw [h.snapSync, hA]
    · simp only [Bool.not_eq_true] at hA
      exact @inflight_nil_of_not_auto s h hA

lemma inv_step_stop (cfg : Config) {s : Sys} (h : Inv s)
    (hsafe : s.inflight = []) : Inv (step cfg s Ev.stop) := by
  show Inv (commit cfg { s with comp := { s.comp with autoGuessing := false } })
  apply inv_commit
  · exact h.winIff
  · exact h.pendSnap
  · intro q hq
    rw [hsafe] at hq
    exact absurd hq (List.not_mem_nil q)
  · intro hs
    have hA : s.comp.autoGuessing = false := by
      have h2 := h.snapSync.symm.trans hs
      rw [Snap.mk.injEq] at h2
      exact h2.1
    have hpend := pending_nil_of_not_auto h hA
    refine ⟨?_, ?_, Or.inl hpend, ?_, ?_⟩
    · intro hne
      exact absurd hpend hne
    · intro hne
      exact absurd hsafe hne
    · rw [hpend]
      simp
    · rw [hsafe]
      simp
  · intro _
    exact hsafe

lemma inv_step_manual (cfg : Config) (g : Option Int) {s : Sys} (h : Inv s) :
    Inv (step cfg s (Ev.manual g)) := by
  simp only [step]
  split
  · exact h
  · next hguard =>
      have hWA : s.comp.won = false ∧ s.comp.autoGuessing = false := by
        cases hW : s.comp.won
        · cases hA : s.comp.autoGuessing
          · exact ⟨rfl, rfl⟩
          · exact absurd (by rw [hW, hA]; rfl) hguard
        · exact absurd (by rw [hW]; rfl) hguard
      have hpend := pending_nil_of_not_auto h hWA.2
      have hflight := inflight_nil_of_not_auto h hWA.2
      apply inv_commit
      · rcases g with _ | n
        · exact h.winIff
        · by_cases hneg : n < 0
          · simp only [handleGuess, if_pos hneg]
            exact h.winIff
          · have hn : 0 ≤ n := by omega
            exact winIff_after_record hn hWA.1 h.winIff
      · exact h.pendSnap
      · intro q hq
        rw [hflight] at hq
        exact absurd hq (List.not_mem_nil q)
      · intro _
        refine ⟨?_, ?_, Or.inl hpend, ?_, ?_⟩
        · intro hne
          exact absurd hpend hne
        · intro hne
          exact absurd hflight hne
        · rw [hpend]
          simp
        · rw [hflight]
          simp
      · intro _
        exact hflight

lemma inv_step_fire (cfg : Config) {s : Sys} (h : Inv s) :
    Inv (step cfg s Ev.fire) := by
  rcases hpe : s.pending with _ | ⟨⟨g, sn⟩, rest⟩
  · simp only [step, hpe]
    exact h
  · have hsn : sn = Snap.mk true false ∧ g = s.gen :=
      h.pendSnap (g, sn) (by rw [hpe]; exact List.mem_cons_self _ _)
    have hrest : rest = [] := by
      have := h.pendLen
      rw [hpe] at this
      simp only [List.length_cons] at this
      exact List.eq_nil_of_length_eq_zero (by omega)
    have hact := h.pendActive (by rw [hpe]; simp)
    have hflight : s.inflight = [] := by
      rcases h.oneSlot with hl | hr
      · rw [hpe] at hl
        exact absurd hl (by simp)
      · exact hr
    simp only [step, hpe, hsn.1, Bool.not_false, Bool.and_self, if_true]
    refine ⟨h.winIff, h.snapSync, ?_, ?_, ?_, ?_, ?_, ?_, ?_⟩
    · intro p hp
      rw [hrest] at hp
      exact absurd hp (List.not_mem_nil p)
    · intro hne
      exact absurd hrest hne
    · intro q hq
      rw [hflight] at hq
      simp only [List.nil_append, List.mem_singleton] at hq
      subst hq
      exact ⟨rfl, hsn.2⟩
    · intro _
      exact hact
    · exact Or.inl hrest
    · rw [hrest]
      simp
    · rw [hflight]
      simp

lemma inv_step_resolve (cfg : Config) {s : Sys} (h : Inv s) :
    Inv (step cfg s Ev.resolve) := by
  rcases hfe : s.inflight with _ | ⟨⟨g, sn, n⟩, rest⟩
  · simp only [step, hfe]
    exact h
  · have hsn : sn = Snap.mk true false ∧ g = s.gen :=
      h.flightSnap (g, sn, n) (by rw [hfe]; exact List.mem_cons_self _ _)
    have hrest : rest = [] := by
      have := h.flightLen
      rw [hfe] at this
      simp only [List.length_cons] at this
      exact List.eq_nil_of_length_eq_zero (by omega)
    have hact := h.flightActive (by rw [hfe]; simp)
    have hpend : s.pending = [] := by
      rcases h.oneSlot with hl | hr
      · exact hl
      · rw [hfe] at hr
        exact absurd hr (by simp)
    have hn : (0 : Int) ≤ (n : Int) := Int.natCast_nonneg n
    simp only [step, hfe]
    rw [handleGuess_some hn]
    by_cases hall : (checkHash (calculateHash cfg.sha256
        (cfg.blockHeader ++ jsIntRepr (n : Int)))).all (fun x => x) = true
    · rw [if_pos hall, if_pos hall, if_pos hall]
      apply inv_commit
      · simp only [hall, if_pos]
        constructor
        · intro _
          exact ⟨_, mem_pushAttempt_self s.comp.attempts _, hall⟩
        · intro _
          trivial
      · intro p hp
        rw [hpend] at hp
        exact absurd hp (List.not_mem_nil p)
      · intro q hq
        rw [hrest] at hq
        exact absurd hq (List.not_mem_nil q)
      · intro _
        refine ⟨?_, ?_, Or.inl hpend, ?_, ?_⟩
        · intro hne
          exact absurd hpend hne
        · intro hne
          exact absurd hrest hne
        · rw [hpend]
          simp
        · rw [hrest]
          simp
      · intro _
        exact hrest
    · have hallf : (checkHash (calculateHash cfg.sha256
          (cfg.blockHeader ++ jsIntRepr (n : Int)))).all (fun x => x) = false := by
        cases hb : (checkHash (calculateHash cfg.sha256
            (cfg.blockHeader ++ jsIntRepr (n : Int)))).all (fun x => x)
        · rfl
        · exact absurd hb hall
      rw [if_neg (by rw [hallf]; simp), if_neg (by rw [hallf]; simp),
        if_neg (by rw [hallf]; simp), hsn.1]
      simp only [eq_self_iff_true, if_true]
      apply inv_commit
      · constructor
        · intro hwc
          rw [hact.2] at hwc
          exact Bool.noConfusion hwc
        · intro ⟨a, ha, hatrue⟩
          rcases mem_pushAttempt_cases ha with hin | heqa
          · exact h.winIff.mpr ⟨a, hin, hatrue⟩
          · subst heqa
            rw [hatrue] at hallf
            exact Bool.noConfusion hallf
      · intro p hp
        rw [hpend] at hp
        simp only [List.nil_append, List.mem_singleton] at hp
        subst hp
        exact ⟨rfl, hsn.2⟩
      · intro q hq
        rw [hrest] at hq
        exact absurd hq (List.not_mem_nil q)
      · intro _
        refine ⟨?_, ?_, Or.inr hrest, ?_, ?_⟩
        · intro _
          exact ⟨hact.1, hact.2⟩
        · intro hne
          exact absurd hrest hne
        · rw [hpend]
          simp
        · rw [hrest]
          simp
      · intro _
        exact hrest

lemma commit_comp (cfg : Config) (s : Sys) : (commit cfg s).comp = s.comp := by
  simp only [commit]
  split
  · rfl
  · split <;> rfl

lemma commit_pending_nil {cfg : Config} {s : Sys} (h : s.pending = []) :
    (commit cfg s).pending = [] := by
  simp only [commit]
  split
  · exact h
  · split <;> simp [h]

lemma commit_inflight_won {cfg : Config} {s : Sys} (hW : s.comp.won = true)
    (h : s.inflight = []) : (commit cfg s).inflight = [] := by
  simp only [commit]
  split
  · exact h
  · split
    · next hcond =>
        exfalso
        rw [hW] at hcond
        simp at hcond
    · exact h

lemma postWin_step (cfg : Config) {s : Sys} (h : Inv s) (hW : s.comp.won = true)
    (e : Ev) :
    (step cfg s e).comp.won = true ∧
    (step cfg s e).comp.totalGuesses = s.comp.totalGuesses ∧
    (step cfg s e).comp.attempts = s.comp.attempts ∧
    Inv (step cfg s e) := by
  have hpend := pending_nil_of_won h hW
  have hflight := inflight_nil_of_won h hW
  cases e with
  | start =>
      have hc : (step cfg s Ev.start).comp
          = ({ s.comp with autoGuessing := true } : Component) :=
        commit_comp cfg { s with comp := { s.comp with autoGuessing := true } }
      refine ⟨?_, ?_, ?_, inv_step_start cfg h⟩
      · rw [hc]
        exact hW
      · rw [hc]
      · rw [hc]
  | stop =>
      have hc : (step cfg s Ev.stop).comp
          = ({ s.comp with autoGuessing := false } : Component) :=
        commit_comp cfg { s with comp := { s.comp with autoGuessing := false } }
      refine ⟨?_, ?_, ?_, inv_step_stop cfg h hflight⟩
      · rw [hc]
        exact hW
      · rw [hc]
      · rw [hc]
  | manual g =>
      have hguard : (s.comp.won || s.comp.autoGuessing) = true := by
        rw [hW]
        rfl
      simp only [step, hguard, if_true]
      exact ⟨hW, trivial, trivial, h⟩
  | fire =>
      simp only [step, hpend]
      exact ⟨hW, trivial, trivial, h⟩
  | resolve =>
      simp only [step, hflight]
      exact ⟨hW, trivial, trivial, h⟩

lemma postWin_run (cfg : Config) :
    ∀ (evs : List Ev) (s : Sys), Inv s → s.comp.won = true →
      ((evs.foldl (step cfg) s).comp.won = true ∧
       (evs.foldl (step cfg) s).comp.totalGuesses = s.comp.totalGuesses ∧
       (evs.foldl (step cfg) s).comp.attempts = s.comp.attempts ∧
       Inv (evs.foldl (step cfg) s)) := by
  intro evs
  induction evs with
  | nil =>
      intro s h hW
      exact ⟨hW, rfl, rfl, h⟩
  | cons e rest ih =>
      intro s h hW
      have hstep := postWin_step cfg h hW e
      have hrec := ih (step cfg s e) hstep.2.2.2 hstep.1
      rw [List.foldl_cons]
      exact ⟨hrec.1, hrec.2.1.trans hstep.2.1, hrec.2.2.1.trans hstep.2.2.1,
        hrec.2.2.2⟩

lemma safeRun_cons {cfg : Config} {s : Sys} {e : Ev} {evs : List Ev}
    (h : safeRun cfg s (e :: evs) = true) :
    (e = Ev.stop → s.inflight = []) ∧ safeRun cfg (step cfg s e) evs = true := by
  simp only [safeRun, Bool.and_eq_true] at h
  refine ⟨?_, h.2⟩
  intro he
  have h1 := h.1
  rw [he] at h1
  simpa using h1

lemma inv_safeRun (cfg : Config) :
    ∀ (evs : List Ev) (s : Sys), Inv s → safeRun cfg s evs = true →
      Inv (evs.foldl (step cfg) s) := by
  intro evs
  induction evs with
  | nil =>
      intro s h _
      exact h
  | cons e rest ih =>
      intro s h hsafe
      obtain ⟨hstop, hrest⟩ := safeRun_cons hsafe
      have hstep : Inv (step cfg s e) := by
        cases e with
        | start => exact inv_step_start cfg h
        | stop => exact inv_step_stop cfg h (hstop rfl)
        | manual g => exact inv_step_manual cfg g h
        | fire => exact inv_step_fire cfg h
        | resolve => exact inv_step_resolve cfg h
      rw [List.foldl_cons]
      exact ih (step cfg s e) hstep hrest

lemma safeRun_append (cfg : Config) :
    ∀ (pfx sfx : List Ev) (s : Sys), safeRun cfg s (pfx ++ sfx) = true →
      safeRun cfg s pfx = true ∧
        safeRun cfg (pfx.foldl (step cfg) s) sfx = true := by
  intro pfx
  induction pfx with
  | nil =>
      intro sfx s h
      exact ⟨rfl, h⟩
  | cons e rest ih =>
      intro sfx s h
      rw [List.cons_append] at h
      simp only [safeRun, Bool.and_eq_true] at h
      obtain ⟨hc, hrest⟩ := h
      obtain ⟨h1, h2⟩ := ih sfx (step cfg s e) hrest
      refine ⟨?_, ?_⟩
      · simp only [safeRun, Bool.and_eq_true]
        exact ⟨hc, h1⟩
      · rw [List.foldl_cons]
        exact h2

/-! ## Claims C2 and C5 -/

/-- The digest capability used by the concrete traces below: the input
bytes of the string H7 (the winning manual nonce) digest to all zero
bytes, everything else to all 255 bytes. -/
def traceDigest : List Nat → List Nat :=
  fun bs => if bs = [72, 55] then List.replicate 32 0 else List.replicate 32 255

/-- The session configuration of the claim C2 counterexample trace. -/
def traceConfig : Config := ⟨traceDigest, fun _ => 0, "H"⟩

/-- Counterexample to claim C2 as stated.  Trace: start the auto-guesser;
request a stop while its first digest computation is in flight; let that
iteration land (a miss) — its stale closure still reads autoGuessing as
true and reschedules; submit a winning manual guess (the interface
allows it: the actual autoGuessing is false), which sets the win flag;
then the stale timeout fires and the resulting auto-guess iteration
records a third attempt after the win flag is set and schedules yet
another timeout — so auto iterations do run after the flag became
true. -/
theorem winInvariant_counterexample :
    (run traceConfig [Ev.start, Ev.stop, Ev.resolve, Ev.manual (some 7)]).comp.won
        = true ∧
    (run traceConfig
        [Ev.start, Ev.stop, Ev.resolve, Ev.manual (some 7)]).comp.totalGuesses = 2 ∧
    (run traceConfig
        [Ev.start, Ev.stop, Ev.resolve, Ev.manual (some 7), Ev.fire,
          Ev.resolve]).comp.totalGuesses = 3 ∧
    (run traceConfig
        [Ev.start, Ev.stop, Ev.resolve, Ev.manual (some 7), Ev.fire,
          Ev.resolve]).comp.won = true ∧
    (run traceConfig
        [Ev.start, Ev.stop, Ev.resolve, Ev.manual (some 7), Ev.fire,
          Ev.resolve]).pending.length = 1 := by
  decide

/-- Claim C2 as amended: along every session trace in which no stop is
requested while an auto-guess iteration is in flight, the win flag is
true exactly when some recorded attempt has every entry true, and once
the flag is true it stays true, no further attempt is recorded (the
counter and the ledger freeze), and nothing remains scheduled or in
flight.  In the unrestricted system a stop during an in-flight
iteration leaves a stale closure that keeps scheduling iterations,
which can record attempts after the flag is set. -/
theorem winFlag_invariant_safe (cfg : Config) (pfx sfx : List Ev)
    (hsafe : safeRun cfg initSys (pfx ++ sfx) = true) :
    ((run cfg (pfx ++ sfx)).comp.won = true ↔
      ∃ a ∈ (run cfg (pfx ++ sfx)).comp.attempts, a.all (fun x => x) = true) ∧
    ((run cfg pfx).comp.won = true →
      (run cfg (pfx ++ sfx)).comp.won = true ∧
      (run cfg (pfx ++ sfx)).comp.totalGuesses = (run cfg pfx).comp.totalGuesses ∧
      (run cfg (pfx ++ sfx)).comp.attempts = (run cfg pfx).comp.attempts ∧
      (run cfg (pfx ++ sfx)).pending = [] ∧
      (run cfg (pfx ++ sfx)).inflight = []) := by
  obtain ⟨hp, hs⟩ := safeRun_append cfg pfx sfx initSys hsafe
  have hinvP : Inv (run cfg pfx) := inv_safeRun cfg pfx initSys inv_init hp
  have hfold : run cfg (pfx ++ sfx) = sfx.foldl (step cfg) (run cfg pfx) := by
    simp only [run, List.foldl_append]
  constructor
  · exact (inv_safeRun cfg (pfx ++ sfx) initSys inv_init hsafe).winIff
  · intro hw
    have hpost := postWin_run cfg sfx (run cfg pfx) hinvP hw
    rw [hfold]
    refine ⟨hpost.1, hpost.2.1, hpost.2.2.1, ?_, ?_⟩
    · exact pending_nil_of_won hpost.2.2.2 hpost.1
    · exact inflight_nil_of_won hpost.2.2.2 hpost.1

/-- Witness for the amended C2 at a concrete safe trace: one auto-guess
started and resolved, no stop issued. -/
theorem winFlag_invariant_safe_witness :
    safeRun traceConfig initSys ([Ev.start] ++ [Ev.resolve]) = true ∧
    ((run traceConfig ([Ev.start] ++ [Ev.resolve])).comp.won = true ↔
      ∃ a ∈ (run traceConfig ([Ev.start] ++ [Ev.resolve])).comp.attempts,
        a.all (fun x => x) = true) :=
  ⟨by decide,
   (winFlag_invariant_safe traceConfig [Ev.start] [Ev.resolve] (by decide)).1⟩

/-- The session configuration of the claim C5 failing trace: every
digest misses, so no win interferes with the stop behaviour. -/
def stopTraceConfig : Config := ⟨fun _ => List.replicate 32 255, fun _ => 0, "H"⟩

/-- Claim C5 evaluated at its failing trace.  Start the auto-guesser and
request a stop while the first digest computation is in flight: the stop
completes (the effect cleanup has run, autoGuessing is false) with one
iteration in flight and nothing recorded.  The in-flight iteration may
land its one result — but its closure captured the stale autoGuessing
value, so it also reschedules; the timeout fires, a brand-new iteration
starts after the stop completed, and a second attempt is recorded,
contradicting the claim that no new iteration starts and the loop is
not resurrected. -/
theorem stopRequest_staleClosure_resurrects :
    (run stopTraceConfig [Ev.start, Ev.stop]).comp.autoGuessing = false ∧
    (run stopTraceConfig [Ev.start, Ev.stop]).comp.totalGuesses = 0 ∧
    (run stopTraceConfig [Ev.start, Ev.stop]).inflight.length = 1 ∧
    (run stopTraceConfig [Ev.start, Ev.stop, Ev.resolve]).comp.totalGuesses = 1 ∧
    (run stopTraceConfig [Ev.start, Ev.stop, Ev.resolve]).pending.length = 1 ∧
    (run stopTraceConfig
        [Ev.start, Ev.stop, Ev.resolve, Ev.fire]).inflight.length = 1 ∧
    (run stopTraceConfig
        [Ev.start, Ev.stop, Ev.resolve, Ev.fire, Ev.resolve]).comp.totalGuesses
      = 2 := by
  decide

end Noncedle
